import Mathlib

/-!
Verification of the sample classification-and-pairing engine of
`project_samples.py` (bigr_utils).

The engine is shallowly embedded: a `Path` object is modelled by its
resolved absolute path string (`PyPath`), since in Python a `pathlib.Path`
is determined by its string.  Regex searches are modelled by explicit
character-list scanners that are faithful to the concrete patterns used by
the source; `sorted(...)` on paths is modelled by `List.insertionSort`
under the string order; `list(set(paths))` is modelled by `List.dedup`
(Python set iteration order is arbitrary, and order-independence of the
pipeline is proved below); the pandas operations used by `as_dataframe`
are modelled at their interface (column construction fails when column
lists have unequal lengths, `set_index` performs no uniqueness check).
-/

set_option maxRecDepth 10000

/-- A resolved absolute path, as produced by `str(path.resolve())`. -/
abbrev PyPath := String

/-- The characters after the last slash (`cur` accumulates, reversed, the
characters of the component being read). -/
def pyNameAux (cur : List Char) : List Char → List Char
  | [] => cur.reverse
  | c :: cs => if c == '/' then pyNameAux [] cs else pyNameAux (c :: cur) cs

/-- `Path.name`: the base name, i.e. the component after the last slash. -/
def pyName (p : PyPath) : String := String.mk (pyNameAux [] p.data)

/-- Scan every start position of a character list with a predicate on the
remaining tail: the model of `re.search` for patterns that (like all five
families of the source) cannot match the empty string. -/
def searchPos (p : List Char → Bool) : List Char → Bool
  | [] => false
  | c :: cs => p (c :: cs) || searchPos p cs

/-- The twelve strings the anchored fastq pattern
`(_|\.)?f(ast)?q(\.gz)?$` can consume: optional separator, `fq`/`fastq`
core, optional `.gz`, ending at end-of-string. -/
def fastqSubForms : List String :=
  ["fq", "_fq", ".fq", "fastq", "_fastq", ".fastq",
   "fq.gz", "_fq.gz", ".fq.gz", "fastq.gz", "_fastq.gz", ".fastq.gz"]

/-- Does the fastq pattern match starting here and running to the end? -/
def isFastqTail (t : List Char) : Bool := fastqSubForms.any (fun m => m.data == t)

/-- `detect_fastq` matcher: `re.search` of `(_|\.)?f(ast)?q(\.gz)?$`. -/
def matchFastq (s : PyPath) : Bool := searchPos isFastqTail s.data

/-- One position of `(_|\.)bed(\.gz)?`: a `_` or `.` followed by `bed`
(the optional `.gz` group does not affect matchability). -/
def capAt : List Char → Bool
  | c1 :: 'b' :: 'e' :: 'd' :: _ => c1 == '_' || c1 == '.'
  | _ => false

/-- `detet_capture_kit` matcher: `re.search` of `(_|\.)bed(\.gz)?`. -/
def matchCaptureKit (s : PyPath) : Bool := searchPos capAt s.data

/-- One position of `_I[\d+](_|\.)`: note that `[\d+]` is a character
class matching a single digit or a literal `+`. -/
def idxAt : List Char → Bool
  | '_' :: 'I' :: c :: d :: _ => (c.isDigit || c == '+') && (d == '_' || d == '.')
  | _ => false

/-- `detect_index` matcher: `re.search` of `_I[\d+](_|\.)`. -/
def matchIndex (s : PyPath) : Bool := searchPos idxAt s.data

/-- One position of `_R?1(_|\.)?`: the trailing optional group does not
affect matchability, so this is a search for `_1` or `_R1`. -/
def r1At : List Char → Bool
  | '_' :: 'R' :: '1' :: _ => true
  | '_' :: '1' :: _ => true
  | _ => false

/-- `detect_R1_strand` matcher: `re.search` of `_R?1(_|\.)?`. -/
def matchR1 (s : PyPath) : Bool := searchPos r1At s.data

/-- One position of `_R?2(_|\.)?`. -/
def r2At : List Char → Bool
  | '_' :: 'R' :: '2' :: _ => true
  | '_' :: '2' :: _ => true
  | _ => false

/-- `detect_R2_strand` matcher: `re.search` of `_R?2(_|\.)?`. -/
def matchR2 (s : PyPath) : Bool := searchPos r2At s.data

/-- `filter_regex`: partition paths into those whose resolved path answers
the regex and those that do not (two comprehensions over the same list,
order preserved; the console reporting is presentation-only). -/
def filter_regex (p : PyPath → Bool) (paths : List PyPath) :
    List PyPath × List PyPath :=
  (paths.filter p, paths.filter (fun path => !(p path)))

/-- `detect_pattern`: the guard `(answering is not None) or (len(answering) > 0)`
is always true because `filter_regex` never returns `None`, so the
`return (None, paths)` fall-through of the source is dead code. -/
def detect_pattern (p : PyPath → Bool) (paths : List PyPath) :
    List PyPath × List PyPath :=
  filter_regex p paths

def detect_fastq : List PyPath → List PyPath × List PyPath :=
  detect_pattern matchFastq

/-- Source name kept, typo included. -/
def detet_capture_kit : List PyPath → List PyPath × List PyPath :=
  detect_pattern matchCaptureKit

def detect_index : List PyPath → List PyPath × List PyPath :=
  detect_pattern matchIndex

def detect_R1_strand : List PyPath → List PyPath × List PyPath :=
  detect_pattern matchR1

def detect_R2_strand : List PyPath → List PyPath × List PyPath :=
  detect_pattern matchR2

/-- Python `sorted` on paths, modelled by insertion sort under the string
order (total, antisymmetric, transitive). -/
def pySorted (l : List PyPath) : List PyPath :=
  l.insertionSort (· ≤ ·)

/-- The annotation bag built by `annotate_paths` (source: a
`defaultdict(list)`).  `upstream_file` is an `Option` because the source
tests key presence (`"upstream_file" not in annotation.keys()`); the other
categories are only ever read through the defaultdict, which yields `[]`
for an absent key. -/
structure Ann where
  non_fastq_files : List PyPath := []
  capture_kit_bed : List PyPath := []
  index : List PyPath := []
  upstream_file : Option (List PyPath) := none
  downstream_file : List PyPath := []
deriving DecidableEq, Repr

/-- `filter_non_fastq_files` (lines 119-167): split off fastq files; among
the rest, single out a unique capture-kit bed file if there is exactly one,
and record everything else (the `bed_files is None` branch is dead code
because `detect_pattern` never returns `None`). -/
def filter_non_fastq_files (paths : List PyPath) (ann : Ann) :
    List PyPath × Ann :=
  let fo := detect_fastq paths
  let fastq_files := fo.1
  let bo := detet_capture_kit fo.2
  let bed_files := bo.1
  let other_files := bo.2
  let ann1 :=
    if bed_files.length = 1 then
      { ann with capture_kit_bed := bed_files,
                 non_fastq_files := pySorted other_files }
    else
      { ann with non_fastq_files := pySorted bed_files }
  let ann2 :=
    if other_files.length ≥ 1 then
      { ann1 with non_fastq_files := ann1.non_fastq_files ++ pySorted other_files }
    else ann1
  if fo.2.length ≥ 1 then (fastq_files, ann2)
  else (fastq_files, ann)

/-- `chunked_even(l, 2)`: chunks of two (for an even-length list, which is
the only case reached by the source, all chunks have exactly two items). -/
def chunk2 : List PyPath → List (List PyPath)
  | a :: b :: rest => [a, b] :: chunk2 rest
  | [a] => [[a]]
  | [] => []

/-- `filter_index_fastq_files` (lines 170-232).  The first component is
`none` when the source returns `None` (terminal annotation), otherwise the
returned list of remaining read files.  The half-ratio test of the source
is `len(idx) == len(reads) / 2` with Python true division, whose equality
with the integer left side holds exactly when `2 * len(idx) == len(reads)`. -/
def filter_index_fastq_files (paths : List PyPath) (ann : Ann) :
    Option (List PyPath) × Ann :=
  let io := detect_index paths
  let fastq_index_sequences := io.1
  let fastq_read_sequences := io.2
  let chunks := chunk2 (pySorted fastq_read_sequences)
  if !fastq_index_sequences.isEmpty then
    if fastq_index_sequences.length = fastq_read_sequences.length then
      (none, { ann with
                 upstream_file := some (pySorted fastq_read_sequences),
                 index := pySorted fastq_index_sequences })
    else if 2 * fastq_index_sequences.length = fastq_read_sequences.length then
      (none, { ann with
                 index := pySorted fastq_index_sequences,
                 upstream_file := some (chunks.map (fun fastq => fastq.headD "")),
                 downstream_file := chunks.map (fun fastq => (fastq.drop 1).headD "") })
    else
      (some (pySorted (fastq_read_sequences ++ fastq_index_sequences)), ann)
  else (some paths, ann)

/-- The strand-pairing block of `annotate_paths` (lines 259-280). -/
def strand_pairing_step (fastq_read_sequences : List PyPath) (ann : Ann) : Ann :=
  let uo := detect_R1_strand fastq_read_sequences
  let upstream_fastq := uo.1
  let do2 := detect_R2_strand uo.2
  let downstream_fastq := do2.1
  let other_fastq := do2.2
  if upstream_fastq.length = downstream_fastq.length then
    { ann with
        upstream_file := some (pySorted (upstream_fastq ++ other_fastq)),
        downstream_file := pySorted downstream_fastq }
  else
    { ann with upstream_file := some (pySorted fastq_read_sequences) }

/-- Errors surfaced by the engine.  `noFastqFound` is the
`FileNotFoundError`, `noUpstreamFile` the `ValueError` of `annotate_paths`;
`tableLengthMismatch` is the pandas `ValueError` raised by
`DataFrame.from_dict` on columns of unequal length; `invalidOrganism` is
the unpacking `ValueError` of `organism.split(".")`. -/
inductive EngineError
  | noFastqFound
  | noUpstreamFile
  | tableLengthMismatch
  | invalidOrganism
deriving DecidableEq, Repr

/-- Python truthiness of `fastq_read_sequences` (a `None`-or-list value):
`None` and the empty list are falsy. -/
def pyTruthy : Option (List PyPath) → Bool
  | none => false
  | some l => !l.isEmpty

/-- `annotate_paths` after the deduplication step (lines 247-284). -/
def annotate_paths_dedup (paths : List PyPath) : Except EngineError Ann :=
  let fa := filter_non_fastq_files paths ({} : Ann)
  let fastq_files := fa.1
  let fi := filter_index_fastq_files fastq_files fa.2
  if fastq_files.isEmpty then
    .error .noFastqFound
  else if pyTruthy fi.1 then
    .ok (strand_pairing_step (fi.1.getD []) fi.2)
  else if fi.2.upstream_file.isNone then
    .error .noUpstreamFile
  else
    .ok fi.2

/-- `annotate_paths` (lines 235-284).  The source starts with
`paths = list(set(paths))`; Python set iteration order is arbitrary, so it
is modelled by `List.dedup`, and invariance of the result under the input
order is proved below. -/
def annotate_paths (paths : List PyPath) : Except EngineError Ann :=
  annotate_paths_dedup paths.dedup

/-- `re.sub(pat, "", name)` for a `$`-anchored pattern that cannot match
the empty string: the leftmost position whose whole remaining tail matches
is removed (the match necessarily runs to the end of the string); at most
one such replacement can happen. -/
def subTerminal (p : List Char → Bool) : List Char → List Char
  | [] => []
  | c :: cs => if p (c :: cs) then [] else c :: subTerminal p cs

/-- Tails consumed by `_R?(1|2)$`. -/
def strandForms : List String := ["_1", "_2", "_R1", "_R2"]

def isStrandTail (t : List Char) : Bool := strandForms.any (fun m => m.data == t)

/-- Tails consumed by `_L[0-9]+$`: an underscore, `L`, then one or more
digits running to the end. -/
def isLaneTail : List Char → Bool
  | '_' :: 'L' :: ds => !ds.isEmpty && ds.all Char.isDigit
  | _ => false

/-- Length of the match of `_E(K|R)DN[0-9]+` anchored at this position
(greedy digits), if any. -/
def ekdnConsume : List Char → Option Nat
  | '_' :: 'E' :: k :: 'D' :: 'N' :: rest =>
    if k == 'K' || k == 'R' then
      let ds := rest.takeWhile Char.isDigit
      if ds.isEmpty then none else some (5 + ds.length)
    else none
  | _ => none

/-- `re.sub(r"_E(K|R)DN[0-9]+", "", name)`: remove every non-overlapping
match, scanning left to right and resuming after each match.  The scan is
written with a fuel argument to keep the recursion structural (every step
consumes at least one character, so `s.length` fuel is always enough and
the fuel-exhausted arm is unreachable). -/
def subEKDNAux : Nat → List Char → List Char
  | _, [] => []
  | 0, s => s
  | fuel + 1, c :: cs =>
    match ekdnConsume (c :: cs) with
    | some n => subEKDNAux fuel (cs.drop (n - 1))
    | none => c :: subEKDNAux fuel cs

def subEKDN (s : List Char) : List Char := subEKDNAux s.length s

/-- Python `str.strip(c)` for a single strip character: remove every
leading and every trailing occurrence of `c`. -/
def stripEdge (c : Char) (s : List Char) : List Char :=
  ((s.dropWhile (fun x => x == c)).reverse.dropWhile (fun x => x == c)).reverse

/-- `remove_common_suffixes` (lines 287-307): drop a terminal fastq
extension, then a terminal strand marker, then a terminal lane marker,
then every embedded `_EKDN<digits>`/`_ERDN<digits>` batch marker, then
strip `_` and `.` from both ends. -/
def remove_common_suffixes (name : String) : String :=
  String.mk
    (stripEdge '.' (stripEdge '_'
      (subEKDN
        (subTerminal isLaneTail
          (subTerminal isStrandTail
            (subTerminal isFastqTail name.data))))))

/-- `os.path.commonprefix` on two strings: the character-wise longest
common first part. -/
def commonStartAux : List Char → List Char → List Char
  | x :: xs, y :: ys => if x == y then x :: commonStartAux xs ys else []
  | _, _ => []

def commonStart (a b : String) : String := String.mk (commonStartAux a.data b.data)

/-- `guess_sample_id` (lines 310-329), at the call site of `as_dataframe`:
the `"downstream_file" in samples.columns` test is always true there (the
column is always created), and the per-row guard `down != ""` compares a
`Path` with a `str`, which is always true in Python, so every row derives
its id from the common first part of the two base names.  (The source's
single-end fallback, line 327, references an undefined variable `name` and
would raise `NameError` if it were ever reached.) -/
def guess_sample_id (upstream downstream : List PyPath) : List String :=
  (upstream.zip downstream).map
    (fun ud => remove_common_suffixes (commonStart (pyName ud.1) (pyName ud.2)))

/-- The sample table produced by `as_dataframe`: a pandas `DataFrame` with
columns `upstream_file`, `downstream_file`, `species`, `build`, `release`,
indexed by `sample_id`.  `set_index` keeps duplicate keys (pandas performs
no uniqueness check by default). -/
structure SampleTable where
  sample_id : List String
  upstream_file : List PyPath
  downstream_file : List PyPath
  species : String
  build : String
  release : String
deriving DecidableEq, Repr

/-- Python `str.split(".")`: cut the string at every dot. -/
def pySplitDotAux (cur : List Char) : List Char → List String
  | [] => [String.mk cur.reverse]
  | c :: cs =>
    if c == '.' then String.mk cur.reverse :: pySplitDotAux [] cs
    else pySplitDotAux (c :: cur) cs

def pySplitDot (s : String) : List String := pySplitDotAux [] s.data

/-- `as_dataframe` (lines 332-354).  `DataFrame.from_dict` raises
`ValueError` when the two column lists have different lengths; the
defaultdict lookups yield `[]` for absent keys; `organism.split(".")`
raises `ValueError` unless it yields exactly three parts. -/
def as_dataframe (annotated : Ann) (organism : String) :
    Except EngineError SampleTable :=
  let up := annotated.upstream_file.getD []
  let down := annotated.downstream_file
  if up.length = down.length then
    match pySplitDot organism with
    | [species, build, release] =>
      .ok { sample_id := guess_sample_id up down,
            upstream_file := up,
            downstream_file := down,
            species := species, build := build, release := release }
    | _ => .error .invalidOrganism
  else
    .error .tableLengthMismatch

/-- The `main` pipeline from path list to sample table: `annotate_paths`
followed by `as_dataframe` (discovery, serialization and console output
are external collaborators). -/
def run_engine (paths : List PyPath) (organism : String) :
    Except EngineError SampleTable :=
  (annotate_paths paths).bind (fun annotated => as_dataframe annotated organism)

/-! ## Helper lemmas -/

theorem pySorted_perm (l : List PyPath) : List.Perm (pySorted l) l :=
  List.perm_insertionSort _ l

theorem mem_pySorted {x : PyPath} {l : List PyPath} : x ∈ pySorted l ↔ x ∈ l :=
  (pySorted_perm l).mem_iff

theorem pySorted_sorted (l : List PyPath) :
    List.Sorted (· ≤ ·) (pySorted l) :=
  List.sorted_insertionSort _ l

theorem pySorted_eq_of_perm {l1 l2 : List PyPath} (h : List.Perm l1 l2) :
    pySorted l1 = pySorted l2 :=
  List.eq_of_perm_of_sorted
    ((pySorted_perm l1).trans (h.trans (pySorted_perm l2).symm))
    (pySorted_sorted l1) (pySorted_sorted l2)

theorem count_pySorted (x : PyPath) (l : List PyPath) :
    (pySorted l).count x = l.count x :=
  (pySorted_perm l).count_eq x

theorem length_pySorted (l : List PyPath) :
    (pySorted l).length = l.length :=
  (pySorted_perm l).length_eq

/-! ## Concrete evaluations for the refuted claims -/

/-- Claim C1 (code evaluation at the failing input): on a path set with a
single fastq-like name and no index or strand marker, `annotate_paths`
records the file as the only upstream file and sets `downstream_file` to
the empty list, and the engine then aborts in `as_dataframe` because the
two column lists have different lengths, instead of producing one
single-ended SampleRecord per fastq file as the claim states. -/
theorem c1_single_end_run_crashes_in_table_building :
    annotate_paths ["/data/a.fastq"] =
      .ok { upstream_file := some ["/data/a.fastq"], downstream_file := [] } ∧
    run_engine ["/data/a.fastq"] "homo_sapiens.GRCh38.105" =
      .error .tableLengthMismatch := by
  constructor
  · rfl
  · rfl

/-- Claim C2 counterexample: with non-fastq candidates `a.bed` and `b.txt`,
exactly one file matches the capture-kit family, yet the remaining
non-matching file `b.txt` is filed twice (not exactly once) under
`non_fastq_files`: the one-match branch records it and the residual
tracking step appends it again. -/
theorem c2_counterexample_nonmatch_filed_twice :
    (detet_capture_kit (detect_fastq ["/d/a.bed", "/d/b.txt"]).2).1.length = 1 ∧
    ((filter_non_fastq_files ["/d/a.bed", "/d/b.txt"] ({} : Ann)).2.non_fastq_files).count
        "/d/b.txt" = 2 := by
  constructor
  · rfl
  · rfl

/-- Claim C4 counterexample: one index file and one read file give a
non-empty index set and an odd read count, yet `filter_index_fastq_files`
takes the equal-count (single-ended) terminal branch, not the ambiguous
fallback branch: it returns `none` together with a bag whose upstream file
is already recorded, so an odd read count does not always fall through to
the fallback that merges the index files back into the reads. -/
theorem c4_counterexample_odd_reads_terminal_branch :
    (detect_index ["/d/x_I1_.fastq", "/d/y.fastq"]).1 ≠ [] ∧
    (detect_index ["/d/x_I1_.fastq", "/d/y.fastq"]).2.length % 2 = 1 ∧
    (filter_index_fastq_files ["/d/x_I1_.fastq", "/d/y.fastq"] ({} : Ann)).1 = none := by
  refine ⟨?_, rfl, rfl⟩
  decide

/-- Claim C5 (code evaluation at the failing input): the source pattern is
`_I[\d+](_|\.)`, whose bracket expression is a one-character class (a
digit or a literal plus sign), not `\d+`.  Hence the two-digit marker
`_I12_` is not matched, although the claim says every multi-digit
`_I<digits>_` name is matched, while the nonsensical marker `_I+_` is
matched. -/
theorem c5_index_family_single_character_class :
    matchIndex "/d/sample_I12_S1.fastq" = false ∧
    matchIndex "/d/sample_I1_S1.fastq" = true ∧
    matchIndex "/d/sample_I+_S1.fastq" = true := by
  refine ⟨rfl, rfl, rfl⟩

/-- Claim C6 counterexample: suffix stripping is not idempotent.  One pass
over `a_R1_L1` removes only the terminal lane marker, giving `a_R1`; a
second pass then removes the strand marker, giving `a`. -/
theorem c6_counterexample_stripping_not_idempotent :
    remove_common_suffixes (remove_common_suffixes "a_R1_L1") ≠
      remove_common_suffixes "a_R1_L1" := by
  decide

/-- Claim C7 counterexample: two distinct read pairs whose names reduce to
the same derived identifier `sampleA_R` do not make table building fail:
`as_dataframe` succeeds and returns both rows under the duplicated key
(pandas `set_index` performs no uniqueness check and no DuplicateSampleId
error exists anywhere in the source). -/
theorem c7_counterexample_duplicate_ids_accepted :
    as_dataframe
        { upstream_file := some ["/a/sampleA_R1.fastq", "/b/sampleA_R1.fastq"],
          downstream_file := ["/a/sampleA_R2.fastq", "/b/sampleA_R2.fastq"] }
        "homo_sapiens.GRCh38.105" =
      .ok { sample_id := ["sampleA_R", "sampleA_R"],
            upstream_file := ["/a/sampleA_R1.fastq", "/b/sampleA_R1.fastq"],
            downstream_file := ["/a/sampleA_R2.fastq", "/b/sampleA_R2.fastq"],
            species := "homo_sapiens", build := "GRCh38", release := "105" } := by
  rfl

/-- Claim C8 counterexample: `filter_regex` searches the full resolved
path, not the base name.  The paths `/data_1/foo.txt` and `/data/foo.txt`
share the base name `foo.txt`, yet the r1-strand family matches the first
(through its parent directory `data_1`) and not the second, so the two
entries land on opposite sides of the partition. -/
theorem c8_counterexample_same_name_split :
    pyName "/data_1/foo.txt" = pyName "/data/foo.txt" ∧
    filter_regex matchR1 ["/data_1/foo.txt", "/data/foo.txt"] =
      (["/data_1/foo.txt"], ["/data/foo.txt"]) := by
  refine ⟨rfl, rfl⟩

/-! ## General theorems -/

/-- Claim C8 (amended): pattern partitioning evaluates each of the five
families against the full resolved path string: a path's side of the
(matched, unmatched) split is determined by whether the family's matcher
accepts its resolved path — not its base name, so entries sharing a base
name under different parent directories can land on opposite sides. -/
theorem c8_amended_partition_by_full_path (p : PyPath → Bool)
    (_hp : p ∈ [matchFastq, matchCaptureKit, matchIndex, matchR1, matchR2])
    (paths : List PyPath) (x : PyPath) (hx : x ∈ paths) :
    (x ∈ (filter_regex p paths).1 ↔ p x = true) ∧
    (x ∈ (filter_regex p paths).2 ↔ p x = false) := by
  unfold filter_regex
  constructor
  · simp [List.mem_filter, hx]
  · simp [List.mem_filter, hx]

theorem c8_amended_witness :
    ("/data_1/foo.txt" ∈
        (filter_regex matchR1 ["/data_1/foo.txt", "/data/foo.txt"]).1 ↔
      matchR1 "/data_1/foo.txt" = true) ∧
    ("/data_1/foo.txt" ∈
        (filter_regex matchR1 ["/data_1/foo.txt", "/data/foo.txt"]).2 ↔
      matchR1 "/data_1/foo.txt" = false) :=
  c8_amended_partition_by_full_path matchR1 (by simp) _ _ (by simp)

/-- Claim C4 (amended): for a non-empty index set and an odd read count,
the half-ratio test of `filter_index_fastq_files` (integer count against a
true-division quotient) can never be satisfied; hence, whenever the
equal-count branch does not apply either, an odd read count falls through
to the ambiguous fallback branch that merges the index files back into the
reads and returns their sorted union. -/
theorem c4_amended_odd_reads_fallback (paths : List PyPath) (ann : Ann)
    (h1 : (detect_index paths).1 ≠ [])
    (h2 : (detect_index paths).2.length % 2 = 1)
    (h3 : (detect_index paths).1.length ≠ (detect_index paths).2.length) :
    2 * (detect_index paths).1.length ≠ (detect_index paths).2.length ∧
    filter_index_fastq_files paths ann =
      (some (pySorted ((detect_index paths).2 ++ (detect_index paths).1)), ann) := by
  have hhalf : ¬(2 * (detect_index paths).1.length = (detect_index paths).2.length) := by
    omega
  refine ⟨hhalf, ?_⟩
  have hne : (!(detect_index paths).1.isEmpty) = true := by
    simp [List.isEmpty_iff, h1]
  unfold filter_index_fastq_files
  rw [if_pos hne, if_neg h3, if_neg hhalf]

theorem c4_amended_witness :
    2 * (detect_index ["/d/x_I1_.fq", "/d/a.fq", "/d/b.fq", "/d/c.fq"]).1.length ≠
      (detect_index ["/d/x_I1_.fq", "/d/a.fq", "/d/b.fq", "/d/c.fq"]).2.length ∧
    filter_index_fastq_files ["/d/x_I1_.fq", "/d/a.fq", "/d/b.fq", "/d/c.fq"] ({} : Ann) =
      (some (pySorted
          ((detect_index ["/d/x_I1_.fq", "/d/a.fq", "/d/b.fq", "/d/c.fq"]).2 ++
            (detect_index ["/d/x_I1_.fq", "/d/a.fq", "/d/b.fq", "/d/c.fq"]).1)),
        ({} : Ann)) :=
  c4_amended_odd_reads_fallback _ _ (by decide) (by decide) (by decide)

/-- Claim C3 (confirmed): in strand pairing, when the number of r1-strand
matches equals the number of r2-strand matches, every file of the read set
appears in the resulting `upstream_file` or `downstream_file` list (the
leftover files are appended to the upstream list), so no input read file
is dropped. -/
theorem c3_equal_counts_keep_every_read (reads : List PyPath) (ann : Ann)
    (h : (detect_R1_strand reads).1.length =
      (detect_R2_strand (detect_R1_strand reads).2).1.length) :
    ∀ x ∈ reads,
      x ∈ (strand_pairing_step reads ann).upstream_file.getD [] ∨
      x ∈ (strand_pairing_step reads ann).downstream_file := by
  intro x hx
  unfold strand_pairing_step
  rw [if_pos h]
  simp only [Option.getD_some, mem_pySorted, List.mem_append]
  by_cases h1 : matchR1 x
  · left
    left
    simp [detect_R1_strand, detect_pattern, filter_regex, List.mem_filter, hx, h1]
  · have hx2 : x ∈ (detect_R1_strand reads).2 := by
      simp [detect_R1_strand, detect_pattern, filter_regex, List.mem_filter, hx, h1]
    by_cases h2 : matchR2 x
    · right
      simp [detect_R2_strand, detect_pattern, filter_regex, List.mem_filter, hx2, h2]
    · left
      right
      simp [detect_R2_strand, detect_pattern, filter_regex, List.mem_filter, hx2, h2]

theorem c3_witness :
    "/d/t.fq" ∈
      (strand_pairing_step ["/d/s_R1.fq", "/d/s_R2.fq", "/d/t.fq"] ({} : Ann)).upstream_file.getD [] ∨
    "/d/t.fq" ∈
      (strand_pairing_step ["/d/s_R1.fq", "/d/s_R2.fq", "/d/t.fq"] ({} : Ann)).downstream_file :=
  c3_equal_counts_keep_every_read _ _ (by decide) _ (by decide)

/-- Claim C7 (amended): table building does not detect duplicate sample
identifiers.  Whenever the two column lists agree in length and the
organism descriptor has three dot-separated parts, `as_dataframe` succeeds
and returns one row per pair keyed by the derived identifiers — even when
two of them coincide nothing is merged, overwritten or rejected (the
derived id list keeps its full length). -/
theorem c7_amended_duplicate_ids_kept (annotated : Ann) (organism s b r : String)
    (hlen : (annotated.upstream_file.getD []).length = annotated.downstream_file.length)
    (horg : pySplitDot organism = [s, b, r]) :
    as_dataframe annotated organism =
      .ok { sample_id :=
              guess_sample_id (annotated.upstream_file.getD []) annotated.downstream_file,
            upstream_file := annotated.upstream_file.getD [],
            downstream_file := annotated.downstream_file,
            species := s, build := b, release := r } ∧
    (guess_sample_id (annotated.upstream_file.getD []) annotated.downstream_file).length =
      (annotated.upstream_file.getD []).length := by
  constructor
  · unfold as_dataframe
    rw [if_pos hlen, horg]
  · unfold guess_sample_id
    rw [List.length_map, List.length_zip, hlen, Nat.min_self]

theorem c7_amended_witness :
    as_dataframe
        { upstream_file := some ["/a/sampleA_R1.fastq", "/b/sampleA_R1.fastq"],
          downstream_file := ["/a/sampleA_R2.fastq", "/b/sampleA_R2.fastq"] }
        "homo_sapiens.GRCh38.105" =
      .ok { sample_id :=
              guess_sample_id
                (({ upstream_file := some ["/a/sampleA_R1.fastq", "/b/sampleA_R1.fastq"],
                    downstream_file :=
                      ["/a/sampleA_R2.fastq", "/b/sampleA_R2.fastq"] } : Ann).upstream_file.getD [])
                ["/a/sampleA_R2.fastq", "/b/sampleA_R2.fastq"],
            upstream_file := ["/a/sampleA_R1.fastq", "/b/sampleA_R1.fastq"],
            downstream_file := ["/a/sampleA_R2.fastq", "/b/sampleA_R2.fastq"],
            species := "homo_sapiens", build := "GRCh38", release := "105" } ∧
    (guess_sample_id ["/a/sampleA_R1.fastq", "/b/sampleA_R1.fastq"]
        ["/a/sampleA_R2.fastq", "/b/sampleA_R2.fastq"]).length =
      (["/a/sampleA_R1.fastq", "/b/sampleA_R1.fastq"] : List PyPath).length :=
  c7_amended_duplicate_ids_kept _ "homo_sapiens.GRCh38.105" "homo_sapiens" "GRCh38" "105"
    (by decide) (by decide)

/-- A `$`-anchored substitution is the identity when no start position
matches. -/
theorem subTerminal_eq_self (p : List Char → Bool) (s : List Char)
    (h : searchPos p s = false) : subTerminal p s = s := by
  induction s with
  | nil => rfl
  | cons c cs ih =>
    rw [searchPos, Bool.or_eq_false_iff] at h
    rw [subTerminal, if_neg (by simp [h.1]), ih h.2]

/-- The batch-marker substitution is the identity when no start position
matches, whatever the fuel. -/
theorem subEKDNAux_eq_self (fuel : Nat) (s : List Char)
    (h : searchPos (fun t => (ekdnConsume t).isSome) s = false) :
    subEKDNAux fuel s = s := by
  induction fuel generalizing s with
  | zero => cases s <;> rfl
  | succ n ih =>
    cases s with
    | nil => rfl
    | cons c cs =>
      rw [searchPos, Bool.or_eq_false_iff] at h
      have hnone : ekdnConsume (c :: cs) = none := by
        cases hopt : ekdnConsume (c :: cs) with
        | none => rfl
        | some v =>
          exfalso
          have := h.1
          rw [hopt] at this
          simp at this
      rw [subEKDNAux, hnone]
      rw [ih cs h.2]

theorem subEKDN_eq_self (s : List Char)
    (h : searchPos (fun t => (ekdnConsume t).isSome) s = false) :
    subEKDN s = s :=
  subEKDNAux_eq_self s.length s h

theorem dropWhile_eq_self_of_head (q : Char → Bool) (s : List Char)
    (h : ∀ x, s.head? = some x → q x = false) : s.dropWhile q = s := by
  cases s with
  | nil => rfl
  | cons a t =>
    rw [List.dropWhile_cons, if_neg]
    simp [h a rfl]

/-- Stripping an edge character is the identity when neither end carries
that character. -/
theorem stripEdge_eq_self (c : Char) (s : List Char)
    (h1 : ∀ x, s.head? = some x → (x == c) = false)
    (h2 : ∀ x, s.getLast? = some x → (x == c) = false) :
    stripEdge c s = s := by
  unfold stripEdge
  rw [dropWhile_eq_self_of_head _ _ h1]
  rw [dropWhile_eq_self_of_head, List.reverse_reverse]
  intro x hx
  rw [List.head?_reverse] at hx
  exact h2 x hx

/-- A name is clean when none of the four removal patterns of
`remove_common_suffixes` matches anywhere in it and neither end carries a
`_` or `.` separator. -/
def cleanName (t : List Char) : Bool :=
  !searchPos isFastqTail t && !searchPos isStrandTail t &&
  !searchPos isLaneTail t && !searchPos (fun u => (ekdnConsume u).isSome) t &&
  (match t.head? with | some c => !(c == '_' || c == '.') | none => true) &&
  (match t.getLast? with | some c => !(c == '_' || c == '.') | none => true)

/-- Every clean name is a fixed point of `remove_common_suffixes`. -/
theorem remove_common_suffixes_fixed (u : String) (h : cleanName u.data = true) :
    remove_common_suffixes u = u := by
  unfold cleanName at h
  simp only [Bool.and_eq_true, Bool.not_eq_true'] at h
  obtain ⟨⟨⟨⟨⟨hf, hs⟩, hl⟩, he⟩, hh⟩, hg⟩ := h
  have hhead : ∀ (c : Char) (x : Char), u.data.head? = some x →
      (c = '_' ∨ c = '.') → (x == c) = false := by
    intro c x hx hc
    rw [hx] at hh
    simp only [Bool.or_eq_true, Bool.not_eq_true', Bool.or_eq_false_iff] at hh
    rcases hc with rfl | rfl
    · exact hh.1
    · exact hh.2
  have hlast : ∀ (c : Char) (x : Char), u.data.getLast? = some x →
      (c = '_' ∨ c = '.') → (x == c) = false := by
    intro c x hx hc
    rw [hx] at hg
    simp only [Bool.or_eq_true, Bool.not_eq_true', Bool.or_eq_false_iff] at hg
    rcases hc with rfl | rfl
    · exact hg.1
    · exact hg.2
  unfold remove_common_suffixes
  rw [subTerminal_eq_self _ _ hf, subTerminal_eq_self _ _ hs,
    subTerminal_eq_self _ _ hl, subEKDN_eq_self _ he,
    stripEdge_eq_self _ _ (fun x hx => hhead '_' x hx (Or.inl rfl))
      (fun x hx => hlast '_' x hx (Or.inl rfl)),
    stripEdge_eq_self _ _ (fun x hx => hhead '.' x hx (Or.inr rfl))
      (fun x hx => hlast '.' x hx (Or.inr rfl))]

theorem subTerminal_length_le (p : List Char → Bool) (s : List Char) :
    (subTerminal p s).length ≤ s.length := by
  induction s with
  | nil => simp [subTerminal]
  | cons c cs ih =>
    rw [subTerminal]
    by_cases hp : p (c :: cs) = true
    · rw [if_pos hp]
      simp
    · rw [if_neg hp]
      simpa using ih

theorem subTerminal_length_lt (p : List Char → Bool) (s : List Char)
    (h : searchPos p s = true) : (subTerminal p s).length < s.length := by
  induction s with
  | nil => simp [searchPos] at h
  | cons c cs ih =>
    rw [searchPos, Bool.or_eq_true] at h
    by_cases hp : p (c :: cs) = true
    · rw [subTerminal, if_pos hp]
      simp
    · have h2 : searchPos p cs = true := by
        rcases h with h1 | h2
        · exact absurd h1 hp
        · exact h2
      rw [subTerminal, if_neg hp]
      simpa using ih h2

theorem subEKDNAux_length_le (fuel : Nat) (s : List Char) :
    (subEKDNAux fuel s).length ≤ s.length := by
  induction fuel generalizing s with
  | zero => cases s <;> simp [subEKDNAux]
  | succ n ih =>
    cases s with
    | nil => simp [subEKDNAux]
    | cons c cs =>
      cases hek : ekdnConsume (c :: cs) with
      | some m =>
        rw [subEKDNAux, hek]
        have h1 : (subEKDNAux n (cs.drop (m - 1))).length ≤ (cs.drop (m - 1)).length := ih _
        have h2 : (cs.drop (m - 1)).length ≤ cs.length := by
          rw [List.length_drop]
          omega
        simp only [List.length_cons]
        omega
      | none =>
        rw [subEKDNAux, hek]
        simpa using ih cs

theorem subEKDN_length_lt (s : List Char)
    (h : searchPos (fun t => (ekdnConsume t).isSome) s = true) :
    (subEKDN s).length < s.length := by
  suffices hgen : ∀ (fuel : Nat) (t : List Char), t.length = fuel →
      searchPos (fun u => (ekdnConsume u).isSome) t = true →
      (subEKDNAux fuel t).length < t.length by
    exact hgen s.length s rfl h
  intro fuel
  induction fuel with
  | zero =>
    intro t ht hsearch
    rw [List.length_eq_zero] at ht
    subst ht
    simp [searchPos] at hsearch
  | succ n ih =>
    intro t ht hsearch
    cases t with
    | nil => simp [searchPos] at hsearch
    | cons c cs =>
      rw [searchPos, Bool.or_eq_true] at hsearch
      cases hek : ekdnConsume (c :: cs) with
      | some m =>
        rw [subEKDNAux, hek]
        have h1 : (subEKDNAux n (cs.drop (m - 1))).length ≤ (cs.drop (m - 1)).length :=
          subEKDNAux_length_le _ _
        have h2 : (cs.drop (m - 1)).length ≤ cs.length := by
          rw [List.length_drop]
          omega
        simp only [List.length_cons]
        omega
      | none =>
        have hcs : searchPos (fun u => (ekdnConsume u).isSome) cs = true := by
          rcases hsearch with h1 | h2
          · rw [hek] at h1
            simp at h1
          · exact h2
        have hlt := ih cs (by simpa using ht) hcs
        rw [subEKDNAux, hek]
        simp only [List.length_cons]
        omega

theorem stripEdge_length_le (c : Char) (s : List Char) :
    (stripEdge c s).length ≤ s.length := by
  have e1 : s.dropWhile (fun x => x == c) <:+ s := List.dropWhile_suffix _
  have e2 : (s.dropWhile (fun x => x == c)).reverse.dropWhile (fun x => x == c) <:+
      (s.dropWhile (fun x => x == c)).reverse := List.dropWhile_suffix _
  have l1 := e1.length_le
  have l2 := e2.length_le
  unfold stripEdge
  rw [List.length_reverse]
  rw [List.length_reverse] at l2
  omega

theorem stripEdge_eq_self_or_lt (c : Char) (s : List Char) :
    stripEdge c s = s ∨ (stripEdge c s).length < s.length := by
  by_cases h : (stripEdge c s).length = s.length
  · left
    have e1 : s.dropWhile (fun x => x == c) <:+ s := List.dropWhile_suffix _
    have e2 : (s.dropWhile (fun x => x == c)).reverse.dropWhile (fun x => x == c) <:+
        (s.dropWhile (fun x => x == c)).reverse := List.dropWhile_suffix _
    have l1 := e1.length_le
    have l2 := e2.length_le
    have hlen : (stripEdge c s).length =
        ((s.dropWhile (fun x => x == c)).reverse.dropWhile (fun x => x == c)).length := by
      unfold stripEdge
      rw [List.length_reverse]
    rw [hlen] at h
    rw [List.length_reverse] at l2
    have hr1e : s.dropWhile (fun x => x == c) = s := e1.eq_of_length (by omega)
    have hr2e := e2.eq_of_length (by rw [List.length_reverse]; omega)
    unfold stripEdge
    rw [hr2e, List.reverse_reverse, hr1e]
  · right
    have := stripEdge_length_le c s
    omega

theorem stripEdge_length_lt_of_head (c : Char) (s : List Char)
    (h : s.head? = some c) : (stripEdge c s).length < s.length := by
  cases s with
  | nil => simp at h
  | cons a t =>
    have ha : a = c := by simpa using h
    subst ha
    have h1 : (a :: t).dropWhile (fun x => x == a) = t.dropWhile (fun x => x == a) := by
      rw [List.dropWhile_cons, if_pos (by simp)]
    have e1 : t.dropWhile (fun x => x == a) <:+ t := List.dropWhile_suffix _
    have e2 : (t.dropWhile (fun x => x == a)).reverse.dropWhile (fun x => x == a) <:+
        (t.dropWhile (fun x => x == a)).reverse := List.dropWhile_suffix _
    have l1 := e1.length_le
    have l2 := e2.length_le
    unfold stripEdge
    rw [h1, List.length_reverse, List.length_cons]
    rw [List.length_reverse] at l2
    omega

theorem stripEdge_length_lt_of_getLast (c : Char) (s : List Char)
    (h : s.getLast? = some c) : (stripEdge c s).length < s.length := by
  have e1 : s.dropWhile (fun x => x == c) <:+ s := List.dropWhile_suffix _
  by_cases hr1 : (s.dropWhile (fun x => x == c)).length = s.length
  · have hr1e : s.dropWhile (fun x => x == c) = s := e1.eq_of_length hr1
    have hh : s.reverse.head? = some c := by
      rw [List.head?_reverse]
      exact h
    cases hsr : s.reverse with
    | nil =>
      rw [hsr] at hh
      simp at hh
    | cons b u =>
      have hb : b = c := by
        rw [hsr] at hh
        simpa using hh
      subst hb
      have hsl : s.length = u.length + 1 := by
        have := congrArg List.length hsr
        simpa using this
      have e2 : u.dropWhile (fun x => x == b) <:+ u := List.dropWhile_suffix _
      have l2 := e2.length_le
      unfold stripEdge
      rw [hr1e, hsr, List.dropWhile_cons, if_pos (by simp), List.length_reverse]
      omega
  · have e1l := e1.length_le
    have h2 : (stripEdge c s).length ≤ (s.dropWhile (fun x => x == c)).length := by
      have e2 : (s.dropWhile (fun x => x == c)).reverse.dropWhile (fun x => x == c) <:+
          (s.dropWhile (fun x => x == c)).reverse := List.dropWhile_suffix _
      have l2 := e2.length_le
      unfold stripEdge
      rw [List.length_reverse]
      rw [List.length_reverse] at l2
      omega
    omega

theorem stripPair_length_lt (t : List Char)
    (h : (∃ x, t.head? = some x ∧ (x = '_' ∨ x = '.')) ∨
      (∃ x, t.getLast? = some x ∧ (x = '_' ∨ x = '.'))) :
    (stripEdge '.' (stripEdge '_' t)).length < t.length := by
  have hle : (stripEdge '.' (stripEdge '_' t)).length ≤ (stripEdge '_' t).length :=
    stripEdge_length_le _ _
  have hle2 : (stripEdge '_' t).length ≤ t.length := stripEdge_length_le _ _
  rcases h with ⟨x, hx, hc⟩ | ⟨x, hx, hc⟩
  · rcases hc with rfl | rfl
    · have := stripEdge_length_lt_of_head '_' t hx
      omega
    · rcases stripEdge_eq_self_or_lt '_' t with he | hlt
      · rw [he]
        exact stripEdge_length_lt_of_head '.' t hx
      · omega
  · rcases hc with rfl | rfl
    · have := stripEdge_length_lt_of_getLast '_' t hx
      omega
    · rcases stripEdge_eq_self_or_lt '_' t with he | hlt
      · rw [he]
        exact stripEdge_length_lt_of_getLast '.' t hx
      · omega

/-- A name that is not clean strictly shrinks under
`remove_common_suffixes`: the first stage whose pattern matches fires and
removes at least one character, and every later stage can only shrink
further; when no removal pattern matches at all, the failing edge
condition makes the final strip fire. -/
theorem remove_common_suffixes_length_lt (u : String) (h : cleanName u.data = false) :
    (remove_common_suffixes u).data.length < u.data.length := by
  have hrw : (remove_common_suffixes u).data =
      stripEdge '.' (stripEdge '_'
        (subEKDN (subTerminal isLaneTail
          (subTerminal isStrandTail (subTerminal isFastqTail u.data))))) := rfl
  rw [hrw]
  have t2le := subTerminal_length_le isStrandTail (subTerminal isFastqTail u.data)
  have t3le := subTerminal_length_le isLaneTail
    (subTerminal isStrandTail (subTerminal isFastqTail u.data))
  have t4le : (subEKDN (subTerminal isLaneTail
      (subTerminal isStrandTail (subTerminal isFastqTail u.data)))).length ≤
      (subTerminal isLaneTail (subTerminal isStrandTail
        (subTerminal isFastqTail u.data))).length := subEKDNAux_length_le _ _
  have t5le := stripEdge_length_le '_'
    (subEKDN (subTerminal isLaneTail (subTerminal isStrandTail (subTerminal isFastqTail u.data))))
  have t6le := stripEdge_length_le '.'
    (stripEdge '_' (subEKDN (subTerminal isLaneTail
      (subTerminal isStrandTail (subTerminal isFastqTail u.data)))))
  by_cases h1 : searchPos isFastqTail u.data = true
  · have hstrict := subTerminal_length_lt isFastqTail u.data h1
    omega
  · have h1f : searchPos isFastqTail u.data = false := by
      cases hx : searchPos isFastqTail u.data
      · rfl
      · exact absurd hx h1
    have e1 : subTerminal isFastqTail u.data = u.data := subTerminal_eq_self _ _ h1f
    rw [e1] at t2le t3le t4le t5le t6le ⊢
    by_cases h2 : searchPos isStrandTail u.data = true
    · have hstrict := subTerminal_length_lt isStrandTail u.data h2
      omega
    · have h2f : searchPos isStrandTail u.data = false := by
        cases hx : searchPos isStrandTail u.data
        · rfl
        · exact absurd hx h2
      have e2 : subTerminal isStrandTail u.data = u.data := subTerminal_eq_self _ _ h2f
      rw [e2] at t3le t4le t5le t6le ⊢
      by_cases h3 : searchPos isLaneTail u.data = true
      · have hstrict := subTerminal_length_lt isLaneTail u.data h3
        omega
      · have h3f : searchPos isLaneTail u.data = false := by
          cases hx : searchPos isLaneTail u.data
          · rfl
          · exact absurd hx h3
        have e3 : subTerminal isLaneTail u.data = u.data := subTerminal_eq_self _ _ h3f
        rw [e3] at t4le t5le t6le ⊢
        by_cases h4 : searchPos (fun t => (ekdnConsume t).isSome) u.data = true
        · have hstrict := subEKDN_length_lt u.data h4
          omega
        · have h4f : searchPos (fun t => (ekdnConsume t).isSome) u.data = false := by
            cases hx : searchPos (fun t => (ekdnConsume t).isSome) u.data
            · rfl
            · exact absurd hx h4
          have e4 : subEKDN u.data = u.data := subEKDN_eq_self _ h4f
          rw [e4] at t5le t6le ⊢
          unfold cleanName at h
          rw [h1f, h2f, h3f, h4f] at h
          simp only [Bool.not_false, Bool.true_and, Bool.and_eq_false_iff] at h
          apply stripPair_length_lt
          rcases h with hE | hF
          · left
            cases hh : u.data.head? with
            | none =>
              rw [hh] at hE
              simp at hE
            | some x =>
              rw [hh] at hE
              have hE1 : (!(x == '_' || x == '.')) = false := hE
              have hE2 : (x == '_' || x == '.') = true := by
                cases hx2 : (x == '_' || x == '.')
                · rw [hx2] at hE1
                  simp at hE1
                · rfl
              have hE3 : x = '_' ∨ x = '.' := by simpa using hE2
              rcases hE3 with h5 | h5
              · exact ⟨x, rfl, Or.inl h5⟩
              · exact ⟨x, rfl, Or.inr h5⟩
          · right
            cases hh : u.data.getLast? with
            | none =>
              rw [hh] at hF
              simp at hF
            | some x =>
              rw [hh] at hF
              have hF1 : (!(x == '_' || x == '.')) = false := hF
              have hF2 : (x == '_' || x == '.') = true := by
                cases hx2 : (x == '_' || x == '.')
                · rw [hx2] at hF1
                  simp at hF1
                · rfl
              have hF3 : x = '_' ∨ x = '.' := by simpa using hF2
              rcases hF3 with h5 | h5
              · exact ⟨x, rfl, Or.inl h5⟩
              · exact ⟨x, rfl, Or.inr h5⟩

/-- A name that is not clean is never a fixed point of
`remove_common_suffixes`. -/
theorem remove_common_suffixes_ne_of_not_clean (u : String)
    (h : cleanName u.data = false) : remove_common_suffixes u ≠ u := by
  intro he
  have hlt := remove_common_suffixes_length_lt u h
  rw [he] at hlt
  omega

/-- Claim C6 (amended): suffix stripping is not idempotent in general — a
later-stage marker can shield an earlier-stage one, so a second pass can
strip further (see the counterexample `a_R1_L1`).  It is idempotent
exactly on those inputs whose first pass produces a clean name: a clean
result is a fixed point of the stripping step, and a non-clean result is
strictly shortened by a second pass, so the second application changes it. -/
theorem c6_amended_idempotent_iff_clean_result (s : String) :
    remove_common_suffixes (remove_common_suffixes s) = remove_common_suffixes s ↔
      cleanName (remove_common_suffixes s).data = true := by
  constructor
  · intro he
    cases hc : cleanName (remove_common_suffixes s).data with
    | false => exact absurd he (remove_common_suffixes_ne_of_not_clean _ hc)
    | true => rfl
  · intro hc
    exact remove_common_suffixes_fixed _ hc

/-- Index separation on a non-empty candidate list either hands a
(necessarily truthy, i.e. non-empty) read list to strand pairing, or
terminates with a bag whose `upstream_file` is already recorded. -/
theorem filter_index_cases (paths : List PyPath) (ann : Ann) (h : paths ≠ []) :
    pyTruthy (filter_index_fastq_files paths ann).1 = true ∨
    ((filter_index_fastq_files paths ann).1 = none ∧
      (filter_index_fastq_files paths ann).2.upstream_file.isSome = true) := by
  unfold filter_index_fastq_files
  by_cases hidx : (detect_index paths).1.isEmpty
  · left
    rw [if_neg (by simp [hidx])]
    simpa [pyTruthy] using h
  · rw [if_pos (by simp [hidx])]
    by_cases heq : (detect_index paths).1.length = (detect_index paths).2.length
    · right
      rw [if_pos heq]
      exact ⟨rfl, rfl⟩
    · rw [if_neg heq]
      by_cases hhalf : 2 * (detect_index paths).1.length = (detect_index paths).2.length
      · right
        rw [if_pos hhalf]
        exact ⟨rfl, rfl⟩
      · left
        rw [if_neg hhalf]
        have hlen : ((detect_index paths).2 ++ (detect_index paths).1).length ≠ 0 := by
          have : (detect_index paths).1.length ≠ 0 := by
            simpa [List.isEmpty_iff, List.length_eq_zero] using hidx
          simp only [List.length_append]
          omega
        have : (pySorted ((detect_index paths).2 ++ (detect_index paths).1)).length ≠ 0 := by
          rwa [length_pySorted]
        simp only [pyTruthy]
        simpa [List.isEmpty_iff, ← List.length_eq_zero] using this

/-- Claim C10 (confirmed): `annotate_paths` never surfaces the
`NoUpstreamFile` error (the `ValueError` of line 282).  Once at least one
fastq candidate exists, index separation either records `upstream_file`
terminally or passes a non-empty read list on to strand pairing, which
records `upstream_file` in both of its branches; with no fastq candidate
the run fails earlier with `NoFastqFound`.  Hence every run either fails
with `NoFastqFound` or returns an annotation bag. -/
theorem c10_no_upstream_error_unreachable (paths : List PyPath) :
    annotate_paths paths = .error .noFastqFound ∨
    ∃ a, annotate_paths paths = .ok a := by
  unfold annotate_paths annotate_paths_dedup
  by_cases hfq : (filter_non_fastq_files paths.dedup ({} : Ann)).1.isEmpty
  · left
    rw [if_pos hfq]
  · right
    rw [if_neg hfq]
    have hne : (filter_non_fastq_files paths.dedup ({} : Ann)).1 ≠ [] := by
      simpa [List.isEmpty_iff] using hfq
    rcases filter_index_cases (filter_non_fastq_files paths.dedup ({} : Ann)).1
        (filter_non_fastq_files paths.dedup ({} : Ann)).2 hne with htruthy | ⟨_, hup⟩
    · rw [if_pos htruthy]
      exact ⟨_, rfl⟩
    · by_cases ht : pyTruthy (filter_index_fastq_files
          (filter_non_fastq_files paths.dedup ({} : Ann)).1
          (filter_non_fastq_files paths.dedup ({} : Ann)).2).1
      · rw [if_pos ht]
        exact ⟨_, rfl⟩
      · rw [if_neg ht]
        have hnn : ((filter_index_fastq_files
            (filter_non_fastq_files paths.dedup ({} : Ann)).1
            (filter_non_fastq_files paths.dedup ({} : Ann)).2).2.upstream_file.isNone) = false := by
          cases hopt : (filter_index_fastq_files
              (filter_non_fastq_files paths.dedup ({} : Ann)).1
              (filter_non_fastq_files paths.dedup ({} : Ann)).2).2.upstream_file with
          | none =>
            rw [hopt] at hup
            simp at hup
          | some v => rfl
        rw [if_neg (by simp [hnn])]
        exact ⟨_, rfl⟩

/-- Claim C2 (amended): in the capture-kit step, when exactly one of the
non-fastq candidates matches the capture-kit family, that file is recorded
under `capture_kit_bed` but every remaining non-matching file is filed
twice (not once) under `non_fastq_files`: the one-match branch records the
sorted non-matches and the residual tracking step appends them again.
When zero or several files match, nothing is recorded under
`capture_kit_bed` and every file of the step's output (matches and
non-matches alike) is filed exactly once. -/
theorem c2_amended_capture_counts (paths : List PyPath) (ann : Ann)
    (hOthers : (detect_fastq paths).2 ≠ []) :
    ((detet_capture_kit (detect_fastq paths).2).1.length = 1 →
      (filter_non_fastq_files paths ann).2.capture_kit_bed =
        (detet_capture_kit (detect_fastq paths).2).1 ∧
      ∀ x : PyPath,
        ((filter_non_fastq_files paths ann).2.non_fastq_files).count x =
          2 * ((detet_capture_kit (detect_fastq paths).2).2).count x) ∧
    ((detet_capture_kit (detect_fastq paths).2).1.length ≠ 1 →
      (filter_non_fastq_files paths ann).2.capture_kit_bed = ann.capture_kit_bed ∧
      ∀ x : PyPath,
        ((filter_non_fastq_files paths ann).2.non_fastq_files).count x =
          ((detet_capture_kit (detect_fastq paths).2).1).count x +
            ((detet_capture_kit (detect_fastq paths).2).2).count x) := by
  have hlen : (detect_fastq paths).2.length ≥ 1 :=
    List.length_pos.mpr hOthers
  unfold filter_non_fastq_files
  rw [if_pos hlen]
  constructor
  · intro h1
    rw [if_pos h1]
    by_cases hrest : (detet_capture_kit (detect_fastq paths).2).2.length ≥ 1
    · rw [if_pos hrest]
      refine ⟨rfl, fun x => ?_⟩
      simp only [List.count_append, count_pySorted]
      omega
    · rw [if_neg hrest]
      refine ⟨rfl, fun x => ?_⟩
      have hnil : (detet_capture_kit (detect_fastq paths).2).2 = [] := by
        cases hh : (detet_capture_kit (detect_fastq paths).2).2 with
        | nil => rfl
        | cons a t =>
          exfalso
          apply hrest
          rw [hh]
          simp
      simp only [count_pySorted, hnil, List.count_nil]
  · intro h1
    rw [if_neg h1]
    by_cases hrest : (detet_capture_kit (detect_fastq paths).2).2.length ≥ 1
    · rw [if_pos hrest]
      refine ⟨rfl, fun x => ?_⟩
      simp only [List.count_append, count_pySorted]
    · rw [if_neg hrest]
      refine ⟨rfl, fun x => ?_⟩
      have hnil : (detet_capture_kit (detect_fastq paths).2).2 = [] := by
        cases hh : (detet_capture_kit (detect_fastq paths).2).2 with
        | nil => rfl
        | cons a t =>
          exfalso
          apply hrest
          rw [hh]
          simp
      simp only [count_pySorted, hnil, List.count_nil]
      omega

theorem c2_amended_witness :
    (filter_non_fastq_files ["/d/a.bed", "/d/b.txt"] ({} : Ann)).2.capture_kit_bed =
      (detet_capture_kit (detect_fastq ["/d/a.bed", "/d/b.txt"]).2).1 ∧
    ((filter_non_fastq_files ["/d/a.bed", "/d/b.txt"] ({} : Ann)).2.non_fastq_files).count
        "/d/b.txt" =
      2 * ((detet_capture_kit (detect_fastq ["/d/a.bed", "/d/b.txt"]).2).2).count "/d/b.txt" := by
  have h := (c2_amended_capture_counts ["/d/a.bed", "/d/b.txt"] ({} : Ann)
    (by decide)).1 (by decide)
  exact ⟨h.1, h.2 "/d/b.txt"⟩

/-- The classifier step is invariant under permutation of its input: the
annotation bag comes out equal and the fastq candidates come out as a
permutation of each other. -/
theorem fnf_of_perm (l1 l2 : List PyPath) (ann : Ann) (h : List.Perm l1 l2) :
    (filter_non_fastq_files l1 ann).2 = (filter_non_fastq_files l2 ann).2 ∧
    List.Perm (filter_non_fastq_files l1 ann).1 (filter_non_fastq_files l2 ann).1 := by
  have hf : List.Perm (detect_fastq l1).1 (detect_fastq l2).1 := h.filter _
  have ho : List.Perm (detect_fastq l1).2 (detect_fastq l2).2 := h.filter _
  have hb : List.Perm (detet_capture_kit (detect_fastq l1).2).1
      (detet_capture_kit (detect_fastq l2).2).1 := ho.filter _
  have hr : List.Perm (detet_capture_kit (detect_fastq l1).2).2
      (detet_capture_kit (detect_fastq l2).2).2 := ho.filter _
  have hol : (detect_fastq l1).2.length = (detect_fastq l2).2.length := ho.length_eq
  have hbl : (detet_capture_kit (detect_fastq l1).2).1.length =
      (detet_capture_kit (detect_fastq l2).2).1.length := hb.length_eq
  have hrl : (detet_capture_kit (detect_fastq l1).2).2.length =
      (detet_capture_kit (detect_fastq l2).2).2.length := hr.length_eq
  have hsb : pySorted (detet_capture_kit (detect_fastq l1).2).1 =
      pySorted (detet_capture_kit (detect_fastq l2).2).1 := pySorted_eq_of_perm hb
  have hsr : pySorted (detet_capture_kit (detect_fastq l1).2).2 =
      pySorted (detet_capture_kit (detect_fastq l2).2).2 := pySorted_eq_of_perm hr
  constructor
  · simp only [filter_non_fastq_files]
    split_ifs with h1 h2 h3 h4 h5 h6 h7 h8
    all_goals (first
      | omega
      | rfl
      | (rw [hsr]; done)
      | (rw [hsb]; done)
      | (rw [hsb, hsr]; done)
      | (have hc1 : (detet_capture_kit (detect_fastq l1).2).1.length = 1 := by assumption
         obtain ⟨a, ha⟩ := List.length_eq_one.mp hc1
         have hb2 : List.Perm (detet_capture_kit (detect_fastq l2).2).1 [a] := by
           rw [← ha]
           exact hb.symm
         rw [ha, List.perm_singleton.mp hb2]
         try rw [hsr]
         try rw [hsb]
         done))
  · simp only [filter_non_fastq_files]
    split_ifs with h1 h2
    all_goals (first | omega | exact hf)

theorem isEmpty_eq_of_length_eq {l1 l2 : List PyPath} (h : l1.length = l2.length) :
    l1.isEmpty = l2.isEmpty := by
  cases l1 <;> cases l2 <;> simp_all

theorem strand_of_perm (r1 r2 : List PyPath) (ann : Ann) (h : List.Perm r1 r2) :
    strand_pairing_step r1 ann = strand_pairing_step r2 ann := by
  have hu : List.Perm (detect_R1_strand r1).1 (detect_R1_strand r2).1 := h.filter _
  have ho : List.Perm (detect_R1_strand r1).2 (detect_R1_strand r2).2 := h.filter _
  have hd : List.Perm (detect_R2_strand (detect_R1_strand r1).2).1
      (detect_R2_strand (detect_R1_strand r2).2).1 := ho.filter _
  have hl : List.Perm (detect_R2_strand (detect_R1_strand r1).2).2
      (detect_R2_strand (detect_R1_strand r2).2).2 := ho.filter _
  have hul : (detect_R1_strand r1).1.length = (detect_R1_strand r2).1.length :=
    hu.length_eq
  have hdl : (detect_R2_strand (detect_R1_strand r1).2).1.length =
      (detect_R2_strand (detect_R1_strand r2).2).1.length := hd.length_eq
  have hsu : pySorted ((detect_R1_strand r1).1 ++
        (detect_R2_strand (detect_R1_strand r1).2).2) =
      pySorted ((detect_R1_strand r2).1 ++
        (detect_R2_strand (detect_R1_strand r2).2).2) :=
    pySorted_eq_of_perm (hu.append hl)
  have hsd : pySorted (detect_R2_strand (detect_R1_strand r1).2).1 =
      pySorted (detect_R2_strand (detect_R1_strand r2).2).1 := pySorted_eq_of_perm hd
  have hsa : pySorted r1 = pySorted r2 := pySorted_eq_of_perm h
  simp only [strand_pairing_step]
  split_ifs with h1 h2
  all_goals (first | omega | (rw [hsu, hsd]; done) | (rw [hsa]; done))

theorem fi_snd_of_perm (p1 p2 : List PyPath) (ann : Ann) (h : List.Perm p1 p2) :
    (filter_index_fastq_files p1 ann).2 = (filter_index_fastq_files p2 ann).2 := by
  have hi : List.Perm (detect_index p1).1 (detect_index p2).1 := h.filter _
  have hrd : List.Perm (detect_index p1).2 (detect_index p2).2 := h.filter _
  have hil : (detect_index p1).1.length = (detect_index p2).1.length := hi.length_eq
  have hrl : (detect_index p1).2.length = (detect_index p2).2.length := hrd.length_eq
  have hsi : pySorted (detect_index p1).1 = pySorted (detect_index p2).1 :=
    pySorted_eq_of_perm hi
  have hsr : pySorted (detect_index p1).2 = pySorted (detect_index p2).2 :=
    pySorted_eq_of_perm hrd
  have hie : (detect_index p1).1.isEmpty = (detect_index p2).1.isEmpty :=
    isEmpty_eq_of_length_eq hil
  simp only [filter_index_fastq_files]
  by_cases hE : (detect_index p1).1.isEmpty = true
  · have hE2t : (detect_index p2).1.isEmpty = true := by
      rw [← hie]
      exact hE
    have c1 : ¬((!(detect_index p1).1.isEmpty) = true) := by simp [hE]
    have c2 : ¬((!(detect_index p2).1.isEmpty) = true) := by simp [hE2t]
    rw [if_neg c1, if_neg c2]
  · have hE1 : (detect_index p1).1.isEmpty = false := by
      cases hb : (detect_index p1).1.isEmpty
      · rfl
      · exact absurd hb hE
    have hE2 : (detect_index p2).1.isEmpty = false := by
      rw [← hie]
      exact hE1
    have c1 : (!(detect_index p1).1.isEmpty) = true := by simp [hE1]
    have c2 : (!(detect_index p2).1.isEmpty) = true := by simp [hE2]
    rw [if_pos c1, if_pos c2]
    split_ifs with h1 h2 h3 h4
    all_goals (first | omega | rfl | (rw [hsr, hsi]; done))

theorem fi_fst_of_perm (p1 p2 : List PyPath) (ann : Ann) (h : List.Perm p1 p2) :
    (filter_index_fastq_files p1 ann).1 = none ∧
      (filter_index_fastq_files p2 ann).1 = none ∨
    ∃ a b, (filter_index_fastq_files p1 ann).1 = some a ∧
      (filter_index_fastq_files p2 ann).1 = some b ∧ List.Perm a b := by
  have hi : List.Perm (detect_index p1).1 (detect_index p2).1 := h.filter _
  have hrd : List.Perm (detect_index p1).2 (detect_index p2).2 := h.filter _
  have hil : (detect_index p1).1.length = (detect_index p2).1.length := hi.length_eq
  have hrl : (detect_index p1).2.length = (detect_index p2).2.length := hrd.length_eq
  have hsm : pySorted ((detect_index p1).2 ++ (detect_index p1).1) =
      pySorted ((detect_index p2).2 ++ (detect_index p2).1) :=
    pySorted_eq_of_perm (hrd.append hi)
  have hie : (detect_index p1).1.isEmpty = (detect_index p2).1.isEmpty :=
    isEmpty_eq_of_length_eq hil
  simp only [filter_index_fastq_files]
  by_cases hE : (detect_index p1).1.isEmpty = true
  · have hE2t : (detect_index p2).1.isEmpty = true := by
      rw [← hie]
      exact hE
    have c1 : ¬((!(detect_index p1).1.isEmpty) = true) := by simp [hE]
    have c2 : ¬((!(detect_index p2).1.isEmpty) = true) := by simp [hE2t]
    rw [if_neg c1, if_neg c2]
    exact Or.inr ⟨p1, p2, rfl, rfl, h⟩
  · have hE1 : (detect_index p1).1.isEmpty = false := by
      cases hb : (detect_index p1).1.isEmpty
      · rfl
      · exact absurd hb hE
    have hE2 : (detect_index p2).1.isEmpty = false := by
      rw [← hie]
      exact hE1
    have c1 : (!(detect_index p1).1.isEmpty) = true := by simp [hE1]
    have c2 : (!(detect_index p2).1.isEmpty) = true := by simp [hE2]
    rw [if_pos c1, if_pos c2]
    split_ifs with h1 h2 h3 h4
    all_goals (first
      | omega
      | (exact Or.inl ⟨rfl, rfl⟩)
      | (refine Or.inr ⟨_, _, rfl, rfl, ?_⟩
         rw [hsm]))

theorem annotate_dedup_of_perm (l1 l2 : List PyPath) (h : List.Perm l1 l2) :
    annotate_paths_dedup l1 = annotate_paths_dedup l2 := by
  obtain ⟨hsnd, hperm⟩ := fnf_of_perm l1 l2 ({} : Ann) h
  unfold annotate_paths_dedup
  have hie : (filter_non_fastq_files l1 ({} : Ann)).1.isEmpty =
      (filter_non_fastq_files l2 ({} : Ann)).1.isEmpty :=
    isEmpty_eq_of_length_eq hperm.length_eq
  by_cases hfq : (filter_non_fastq_files l1 ({} : Ann)).1.isEmpty = true
  · have hfq2 : (filter_non_fastq_files l2 ({} : Ann)).1.isEmpty = true := by
      rw [← hie]
      exact hfq
    rw [if_pos hfq, if_pos hfq2]
  · have hfq2 : ¬((filter_non_fastq_files l2 ({} : Ann)).1.isEmpty = true) := by
      rw [← hie]
      exact hfq
    rw [if_neg hfq, if_neg hfq2, ← hsnd]
    have hsnd2 := fi_snd_of_perm (filter_non_fastq_files l1 ({} : Ann)).1
      (filter_non_fastq_files l2 ({} : Ann)).1 (filter_non_fastq_files l1 ({} : Ann)).2 hperm
    rcases fi_fst_of_perm (filter_non_fastq_files l1 ({} : Ann)).1
        (filter_non_fastq_files l2 ({} : Ann)).1 (filter_non_fastq_files l1 ({} : Ann)).2
        hperm with ⟨hn1, hn2⟩ | ⟨a, b, ha, hb, hab⟩
    · rw [hn1, hn2, hsnd2]
    · rw [ha, hb, hsnd2]
      simp only [Option.getD_some]
      have habE : a.isEmpty = b.isEmpty := isEmpty_eq_of_length_eq hab.length_eq
      by_cases haE : a.isEmpty = true
      · have hbE : b.isEmpty = true := by
          rw [← habE]
          exact haE
        have ca : ¬(pyTruthy (some a) = true) := by simp [pyTruthy, haE]
        have cb : ¬(pyTruthy (some b) = true) := by simp [pyTruthy, hbE]
        rw [if_neg ca, if_neg cb]
      · have haE1 : a.isEmpty = false := by
          cases hx : a.isEmpty
          · rfl
          · exact absurd hx haE
        have hbE1 : b.isEmpty = false := by
          rw [← habE]
          exact haE1
        have ca : pyTruthy (some a) = true := by simp [pyTruthy, haE1]
        have cb : pyTruthy (some b) = true := by simp [pyTruthy, hbE1]
        rw [if_pos ca, if_pos cb,
          strand_of_perm a b (filter_index_fastq_files
            (filter_non_fastq_files l2 ({} : Ann)).1
            (filter_non_fastq_files l1 ({} : Ann)).2).2 hab]

/-- Claim C9 (confirmed): classification is deterministic in the input
set.  Two invocations of `annotate_paths` on path lists containing the
same set of paths (in any order, with any duplication) return equal
results, error or annotation bag alike: the dedup step and the
content-based filters make every recorded category depend only on the set
of input paths. -/
theorem c9_deterministic_in_input_set (l1 l2 : List PyPath)
    (h : ∀ x : PyPath, x ∈ l1 ↔ x ∈ l2) :
    annotate_paths l1 = annotate_paths l2 := by
  have hperm : List.Perm l1.dedup l2.dedup := by
    rw [List.perm_ext_iff_of_nodup (List.nodup_dedup l1) (List.nodup_dedup l2)]
    intro a
    rw [List.mem_dedup, List.mem_dedup]
    exact h a
  unfold annotate_paths
  exact annotate_dedup_of_perm _ _ hperm

theorem c9_witness :
    annotate_paths ["/d/b.fastq", "/d/a.fastq", "/d/a.fastq"] =
      annotate_paths ["/d/a.fastq", "/d/b.fastq"] :=
  c9_deterministic_in_input_set _ _ (by
    intro x
    simp only [List.mem_cons, List.not_mem_nil, or_false, or_self]
    exact or_comm)
